import Mathlib

/-!
Shallow embedding of the module-lifecycle core of the cfbs command layer
(src/cfbs/commands.py), together with theorems about its behaviour.

Conventions used throughout:
* Python dict-shaped module records become the structure `Cfbs.Module`;
  an absent key becomes `none` (an absent `dependencies` key behaves
  exactly like the empty list in every embedded function, so it is a
  plain list).
* Fallible code returns `Option` or `Except`; an unhandled Python
  exception is `none`, a raised `CFBSExitError` is `Except.error` with
  the message the code formats.
* Interactive prompts, the filesystem and the network are external
  collaborators; they enter as explicit environment records of boolean
  valued functions.
* The unbounded recursion in `_someone_needs_me` is embedded with an
  explicit fuel parameter; `none` marks fuel exhaustion, so divergence
  of the original code at an input is the statement that every fuel
  amount yields `none` there.
-/

namespace Cfbs

/-- Single quote character, used to reproduce the exact message strings of the code. -/
def sq : String := String.singleton (Char.ofNat 39)

/-- Module record of the build list (cfbs.json "build" entry), §3 of the design.
Fields mirror the dict keys read by commands.py; absent keys are `none`. -/
structure Module where
  name : String
  version : Option String
  commit : Option String
  url : Option String
  repo : Option String
  subdirectory : Option String
  dependencies : List String
  added_by : Option String
  index : Option String
deriving DecidableEq, Repr

/-- Module record with only a name, every optional key absent. -/
def mkModule (n : String) : Module :=
  ⟨n, none, none, none, none, none, [], none, none⟩

/-! ## Version comparison in update_command (commands.py lines 648-667) -/

/-- Splitting a character list at separator characters; the result always
has one more word than there are separators, so empty components appear
exactly where the regular expression split of Python produces them. -/
def splitChars (sep : Char → Bool) : List Char → List (List Char)
  | [] => [[]]
  | c :: cs =>
    if sep c then [] :: splitChars sep cs
    else
      match splitChars sep cs with
      | [] => [[c]]
      | w :: ws => (c :: w) :: ws

/-- Embedding of `re.split(r"[-\.]", s)`: split on dots and dashes. -/
def splitVersion (s : String) : List String :=
  (splitChars (fun c => c == '.' || c == '-') s.toList).map String.mk

/-- Nonempty all-decimal-digit test, the domain on which `int()` succeeds. -/
def isDigitList (l : List Char) : Bool :=
  !l.isEmpty && l.all (fun c => c.isDigit)

/-- Decimal value of a digit list. -/
def digitsVal (l : List Char) : Nat :=
  l.foldl (fun acc c => acc * 10 + (c.toNat - 48)) 0

/-- Embedding of the Python `int()` conversion applied to one component:
an optional sign followed by decimal digits; anything else raises, i.e.
yields `none`. -/
def pyInt (s : String) : Option Int :=
  match s.toList with
  | '-' :: rest => if isDigitList rest then some (-(digitsVal rest : Int)) else none
  | '+' :: rest => if isDigitList rest then some ((digitsVal rest : Int)) else none
  | l => if isDigitList l then some ((digitsVal l : Int)) else none

/-- Embedding of `[int(c) for c in re.split(r"[-\.]", v)]`: the whole list
comprehension raises as soon as one component is not an integer. -/
def parseList : List String → Option (List Int)
  | [] => some []
  | c :: cs =>
    match pyInt c, parseList cs with
    | some n, some ns => some (n :: ns)
    | _, _ => none

/-- Integer tuple of a version string, or `none` if `int()` raises. -/
def parseVersion (s : String) : Option (List Int) :=
  parseList (splitVersion s)

/-- Embedding of the Python `<` comparison on lists of integers:
lexicographic, with a strict prefix smaller than the longer list. -/
def listLexLt : List Int → List Int → Bool
  | [], [] => false
  | [], _ :: _ => true
  | _ :: _, [] => false
  | a :: as, b :: bs => if a < b then true else if b < a then false else listLexLt as bs

/-- Outcome of the per-module version check in update_command. -/
inductive UpdateDecision where
  | uptodate
  | warnSkip
  | proceed
deriving DecidableEq, Repr

/-- Embedding of commands.py lines 648-667: parse both version strings into
integer tuples, then skip when equal, warn and skip when the installed tuple
is greater, and proceed otherwise. A failed `int()` conversion propagates as
`none` (the exception is not handled anywhere in update_command). -/
def updateDecision (localVersion indexVersion : String) : Option UpdateDecision :=
  match parseVersion localVersion, parseVersion indexVersion with
  | some localVer, some indexVer =>
    if localVer = indexVer then some .uptodate
    else if listLexLt indexVer localVer then some .warnSkip
    else some .proceed
  | _, _ => none

lemma listLexLt_irrefl : ∀ l : List Int, listLexLt l l = false
  | [] => rfl
  | a :: as => by simp [listLexLt, listLexLt_irrefl as]

lemma listLexLt_asymm : ∀ {l₁ l₂ : List Int}, listLexLt l₁ l₂ = true → listLexLt l₂ l₁ = false
  | [], [], h => by simp [listLexLt] at h
  | [], _ :: _, _ => rfl
  | _ :: _, [], h => by simp [listLexLt] at h
  | a :: as, b :: bs, h => by
    by_cases hab : a < b
    · have : ¬ b < a := not_lt_of_gt hab
      simp [listLexLt, this, hab]
    · by_cases hba : b < a
      · simp [listLexLt, hab, hba] at h
      · have hab' : ¬ a < b := hab
        simp [listLexLt, hab', hba] at h ⊢
        exact listLexLt_asymm h

lemma listLexLt_trichotomy : ∀ l₁ l₂ : List Int,
    l₁ = l₂ ∨ listLexLt l₁ l₂ = true ∨ listLexLt l₂ l₁ = true
  | [], [] => Or.inl rfl
  | [], _ :: _ => Or.inr (Or.inl rfl)
  | _ :: _, [] => Or.inr (Or.inr rfl)
  | a :: as, b :: bs => by
    rcases lt_trichotomy a b with h | h | h
    · exact Or.inr (Or.inl (by simp [listLexLt, h]))
    · subst h
      rcases listLexLt_trichotomy as bs with h | h | h
      · exact Or.inl (by rw [h])
      · exact Or.inr (Or.inl (by simp [listLexLt, h]))
      · exact Or.inr (Or.inr (by simp [listLexLt, h]))
    · exact Or.inr (Or.inr (by simp [listLexLt, h]))

/-- C1: in update_command, for an index-sourced target module both version
strings are split on dots and dashes into integer tuples and compared
lexicographically: equal tuples give the already-up-to-date skip, an
installed tuple that is greater gives the warn-and-skip (never downgrade),
and the update proceeds exactly when the installed tuple is smaller. -/
theorem update_version_decision (localV indexV : String) (lv iv : List Int)
    (hl : parseVersion localV = some lv) (hi : parseVersion indexV = some iv) :
    (updateDecision localV indexV = some .uptodate ↔ lv = iv) ∧
    (updateDecision localV indexV = some .warnSkip ↔ listLexLt iv lv = true) ∧
    (updateDecision localV indexV = some .proceed ↔ listLexLt lv iv = true) := by
  unfold updateDecision
  rw [hl, hi]
  by_cases heq : lv = iv
  · subst heq
    simp [listLexLt_irrefl]
  · by_cases hgt : listLexLt iv lv = true
    · simp [heq, hgt, listLexLt_asymm hgt]
    · have hlt : listLexLt lv iv = true := by
        rcases listLexLt_trichotomy lv iv with h | h | h
        · exact absurd h heq
        · exact h
        · exact absurd h hgt
      simp [heq, hgt, hlt]

/-- Witness for C1 at the concrete versions named by the spec. -/
theorem update_version_decision_witness :
    updateDecision ("1.2.3") ("1.2.4") = some .proceed ∧
    updateDecision ("1.2.3-1") ("1.2.3-2") = some .proceed ∧
    updateDecision ("2.0.0") ("1.9.0") = some .warnSkip ∧
    updateDecision ("1.2.3") ("1.2.3") = some .uptodate := by
  refine ⟨?_, ?_, ?_, ?_⟩
  · exact (update_version_decision _ _ [1, 2, 3] [1, 2, 4] (by decide) (by decide)).2.2.mpr (by decide)
  · exact (update_version_decision _ _ [1, 2, 3, 1] [1, 2, 3, 2] (by decide) (by decide)).2.2.mpr (by decide)
  · exact (update_version_decision _ _ [2, 0, 0] [1, 9, 0] (by decide) (by decide)).2.1.mpr (by decide)
  · exact (update_version_decision _ _ [1, 2, 3] [1, 2, 3] (by decide) (by decide)).1.mpr rfl

lemma parseList_isSome : ∀ l : List String,
    (parseList l).isSome = true ↔ ∀ c ∈ l, (pyInt c).isSome = true := by
  intro l
  induction l with
  | nil => simp [parseList]
  | cons c cs ih =>
    constructor
    · intro h
      unfold parseList at h
      cases hc : pyInt c with
      | none => rw [hc] at h; simp at h
      | some n =>
        cases hcs : parseList cs with
        | none => rw [hc, hcs] at h; simp at h
        | some ns =>
          intro x hx
          rcases List.mem_cons.mp hx with rfl | hx'
          · simp [hc]
          · exact (ih.mp (by simp [hcs])) x hx'
    · intro h
      unfold parseList
      cases hc : pyInt c with
      | none =>
        have := h c (List.mem_cons_self c cs)
        rw [hc] at this
        simp at this
      | some n =>
        have : (parseList cs).isSome = true :=
          ih.mpr (fun x hx => h x (List.mem_cons_of_mem c hx))
        cases hcs : parseList cs with
        | none => rw [hcs] at this; simp at this
        | some ns => simp

/-- C10: the update version check converts every dot-and-dash separated
component of both version strings with the integer conversion, and it
returns a decision exactly when every component of both strings converts;
a non-numeric component (such as in 1.2.3b) makes the whole check raise,
modelled as `none`, instead of skipping the module with a warning. -/
theorem update_version_parse_totality :
    (∀ localV indexV : String,
      (updateDecision localV indexV).isSome = true ↔
        ((∀ c ∈ splitVersion localV, (pyInt c).isSome = true) ∧
         (∀ c ∈ splitVersion indexV, (pyInt c).isSome = true))) ∧
    updateDecision ("1.2.3b") ("1.2.4") = none := by
  constructor
  · intro localV indexV
    unfold updateDecision parseVersion
    constructor
    · intro h
      cases hl : parseList (splitVersion localV) with
      | none => rw [hl] at h; simp at h
      | some lv =>
        cases hi : parseList (splitVersion indexV) with
        | none => rw [hl, hi] at h; simp at h
        | some iv =>
          exact ⟨(parseList_isSome _).mp (by simp [hl]), (parseList_isSome _).mp (by simp [hi])⟩
    · rintro ⟨h1, h2⟩
      have hl := (parseList_isSome _).mpr h1
      have hi := (parseList_isSome _).mpr h2
      cases hlv : parseList (splitVersion localV) with
      | none => rw [hlv] at hl; simp at hl
      | some lv =>
        cases hiv : parseList (splitVersion indexV) with
        | none => rw [hiv] at hi; simp at hi
        | some iv =>
          by_cases heq : lv = iv
          · simp [heq]
          · by_cases hgt : listLexLt iv lv
            · simp [heq, hgt]
            · simp [heq, hgt]
  · decide

/-! ## Prune (clean_command / _clean_unused_modules, commands.py lines 519-566) -/

/-- Modelled from the spec: the manual-add sentinel marking a module the user
requested directly; add_command and init_command pass these markers as the
added_by provenance value. -/
def is_module_added_manually (s : String) : Bool :=
  s == "cfbs add" || s == "cfbs init"

/-- Embedding of the root test of `_someone_needs_me`: no added_by key, or an
added_by equal to the manual marker (§3 invariant). -/
def isRoot (m : Module) : Bool :=
  match m.added_by with
  | none => true
  | some s => is_module_added_manually s

/-- First module of the build list whose dependencies mention the given name;
this is exactly the module whose recursive result the loop in
`_someone_needs_me` returns. -/
def firstDependent (modules : List Module) (name : String) : Option Module :=
  modules.find? (fun other => other.dependencies.contains name)

/-- Embedding of `_someone_needs_me` with an explicit recursion budget:
`none` means the budget ran out, so divergence of the Python recursion at an
input is the statement that every budget yields `none` there. Note that the
loop body returns the recursive result of the FIRST dependent found, so at
most one recursive call is made. -/
def someoneNeedsMe (modules : List Module) : Nat → Module → Option Bool
  | 0, _ => none
  | fuel + 1, thisM =>
    if isRoot thisM then some true
    else
      match firstDependent modules thisM.name with
      | some other => someoneNeedsMe modules fuel other
      | none => some false

/-- Embedding of the candidate-collection loop of `_clean_unused_modules`:
modules for which `_someone_needs_me` is false, in build-list order. -/
def pruneSelect (modules : List Module) (fuel : Nat) : List Module → Option (List Module)
  | [] => some []
  | m :: rest =>
    match someoneNeedsMe modules fuel m, pruneSelect modules fuel rest with
    | some b, some l => some (if b then l else m :: l)
    | _, _ => none

/-- Candidates for removal over the whole build list. -/
def pruneCandidates (fuel : Nat) (modules : List Module) : Option (List Module) :=
  pruneSelect modules fuel modules

/-- Embedding of the Python `list.remove`: delete the first equal element. -/
def eraseFirst : List Module → Module → List Module
  | [], _ => []
  | x :: xs, m => if x = m then xs else x :: eraseFirst xs m

/-- Result of `_clean_unused_modules`: divergence of the reachability
recursion, the raised CFBSReturnWithoutCommit signal, or a normal return
carrying the resulting build list. -/
inductive CleanResult where
  | diverge
  | signalNoCommit
  | ok (modules : List Module)
deriving DecidableEq, Repr

/-- Embedding of `_clean_unused_modules` (lines 519-566): an empty build list
returns normally at once; otherwise candidates are collected, an empty
candidate list raises the no-commit signal, and on batch confirmation every
candidate is removed with `list.remove`. The missing-build-key early return
behaves like the empty list and is folded into it. -/
def cleanUnusedModules (answerYes : Bool) (fuel : Nat) (modules : List Module) : CleanResult :=
  if modules.isEmpty then .ok modules
  else
    match pruneCandidates fuel modules with
    | none => .diverge
    | some toRemove =>
      if toRemove.isEmpty then .signalNoCommit
      else if answerYes then .ok (toRemove.foldl eraseFirst modules)
      else .ok modules

/-- SpecReachable is the reachability relation in the words of the claim and
of §4.2 of the spec: a module is reachable if it is a root, or if some module
of the build list that lists it among its dependencies is itself reachable. -/
inductive SpecReachable (modules : List Module) : Module → Prop where
  | root (m : Module) (h : isRoot m = true) : SpecReachable modules m
  | dep (m other : Module) (ho : other ∈ modules)
      (hd : m.name ∈ other.dependencies) (hr : SpecReachable modules other) :
      SpecReachable modules m

/-- CodeKeep is the declarative semantics of what `_someone_needs_me` actually
computes when it terminates: a chain of FIRST dependents ending in a root. -/
inductive CodeKeep (modules : List Module) : Module → Prop where
  | root (m : Module) (h : isRoot m = true) : CodeKeep modules m
  | chain (m other : Module) (h : isRoot m = false)
      (hf : firstDependent modules m.name = some other) (hr : CodeKeep modules other) :
      CodeKeep modules m

lemma someoneNeedsMe_true :
    ∀ (fuel : Nat) (mods : List Module) (m : Module),
      someoneNeedsMe mods fuel m = some true → CodeKeep mods m := by
  intro fuel
  induction fuel with
  | zero => intro mods m h; simp [someoneNeedsMe] at h
  | succ n ih =>
    intro mods m h
    unfold someoneNeedsMe at h
    by_cases hr : isRoot m = true
    · exact CodeKeep.root m hr
    · rw [if_neg hr] at h
      cases hfd : firstDependent mods m.name with
      | none => rw [hfd] at h; simp at h
      | some o =>
        rw [hfd] at h
        exact CodeKeep.chain m o (by simpa using hr) hfd (ih mods o h)

lemma someoneNeedsMe_false :
    ∀ (fuel : Nat) (mods : List Module) (m : Module),
      someoneNeedsMe mods fuel m = some false → ¬ CodeKeep mods m := by
  intro fuel
  induction fuel with
  | zero => intro mods m h; simp [someoneNeedsMe] at h
  | succ n ih =>
    intro mods m h
    unfold someoneNeedsMe at h
    by_cases hr : isRoot m = true
    · rw [if_pos hr] at h; simp at h
    · rw [if_neg hr] at h
      cases hfd : firstDependent mods m.name with
      | none =>
        intro hk
        cases hk with
        | root _ hroot => exact hr hroot
        | chain _ o _ hf _ => rw [hfd] at hf; exact Option.noConfusion hf
      | some o =>
        rw [hfd] at h
        intro hk
        cases hk with
        | root _ hroot => exact hr hroot
        | chain _ o' _ hf hko =>
          rw [hfd] at hf
          cases hf
          exact ih mods o h hko

lemma pruneSelect_eq_filter (mods : List Module) (fuel : Nat) :
    ∀ (l toR : List Module), pruneSelect mods fuel l = some toR →
      toR = l.filter (fun m => decide (someoneNeedsMe mods fuel m = some false)) ∧
      ∀ m ∈ l, (someoneNeedsMe mods fuel m).isSome = true := by
  intro l
  induction l with
  | nil =>
    intro toR h
    simp [pruneSelect] at h
    subst h
    simp
  | cons x xs ih =>
    intro toR h
    unfold pruneSelect at h
    cases hx : someoneNeedsMe mods fuel x with
    | none => rw [hx] at h; simp at h
    | some b =>
      rw [hx] at h
      cases hxs : pruneSelect mods fuel xs with
      | none => rw [hxs] at h; simp at h
      | some l' =>
        rw [hxs] at h
        simp only [Option.some.injEq] at h
        obtain ⟨hfil, hsome⟩ := ih l' hxs
        constructor
        · cases b with
          | true =>
            have : decide (someoneNeedsMe mods fuel x = some false) = false := by
              simp [hx]
            simp [← h, List.filter_cons, this, hfil]
          | false =>
            have : decide (someoneNeedsMe mods fuel x = some false) = true := by
              simp [hx]
            simp [← h, List.filter_cons, this, hfil]
        · intro m hm
          rcases List.mem_cons.mp hm with rfl | hm'
          · simp [hx]
          · exact hsome m hm'

lemma foldl_eraseFirst_cons_of_ne (x : Module) :
    ∀ (toR l : List Module), (∀ m ∈ toR, m ≠ x) →
      toR.foldl eraseFirst (x :: l) = x :: toR.foldl eraseFirst l := by
  intro toR
  induction toR with
  | nil => intro l _; rfl
  | cons m ms ih =>
    intro l hne
    have hmx : m ≠ x := hne m (List.mem_cons_self m ms)
    have hxm : ¬ (x = m) := fun hh => hmx hh.symm
    have : eraseFirst (x :: l) m = x :: eraseFirst l m := by
      simp [eraseFirst, hxm]
    simp only [List.foldl_cons, this]
    exact ih (eraseFirst l m) (fun a ha => hne a (List.mem_cons_of_mem m ha))

lemma foldl_eraseFirst_filter (p : Module → Bool) :
    ∀ l : List Module, (l.filter (fun m => !(p m))).foldl eraseFirst l = l.filter p := by
  intro l
  induction l with
  | nil => rfl
  | cons x xs ih =>
    by_cases hx : p x = true
    · have h1 : (x :: xs).filter (fun m => !(p m)) = xs.filter (fun m => !(p m)) := by
        simp [List.filter_cons, hx]
      have hne : ∀ m ∈ xs.filter (fun m => !(p m)), m ≠ x := by
        intro m hm heq
        have := (List.mem_filter.mp hm).2
        rw [heq] at this
        simp [hx] at this
      rw [h1, foldl_eraseFirst_cons_of_ne x _ xs hne, ih]
      simp [List.filter_cons, hx]
    · have hx' : p x = false := by simpa using hx
      have h1 : (x :: xs).filter (fun m => !(p m)) = x :: xs.filter (fun m => !(p m)) := by
        simp [List.filter_cons, hx']
      have h2 : eraseFirst (x :: xs) x = xs := by simp [eraseFirst]
      rw [h1]
      simp only [List.foldl_cons, h2, ih]
      simp [List.filter_cons, hx']

/-- C2 (amended): with batch confirmation, prune removes exactly the modules
that are unreachable under the rule the code implements: a module stays in
the build list if and only if it is a root or the FIRST module in build-list
order that lists it among its dependencies is itself kept. -/
theorem clean_unused_removes_exactly_code_unreachable
    (fuel : Nat) (modules result : List Module)
    (hne : modules ≠ [])
    (h : cleanUnusedModules true fuel modules = .ok result) :
    ∀ m ∈ modules, (m ∈ result ↔ CodeKeep modules m) := by
  unfold cleanUnusedModules at h
  rw [if_neg (by simpa using hne)] at h
  cases hc : pruneCandidates fuel modules with
  | none => rw [hc] at h; dsimp only at h; exact absurd h (by simp)
  | some toR =>
    rw [hc] at h
    dsimp only at h
    by_cases hemp : toR.isEmpty = true
    · rw [if_pos hemp] at h; exact absurd h (by simp)
    · rw [if_neg hemp, if_pos rfl] at h
      obtain ⟨hfil, hsome⟩ := pruneSelect_eq_filter modules fuel modules toR hc
      have hres0 : toR.foldl eraseFirst modules = result := CleanResult.ok.inj h
      have hres : result = modules.filter
          (fun m => decide (someoneNeedsMe modules fuel m = some true)) := by
        have hcongr : modules.filter (fun m => decide (someoneNeedsMe modules fuel m = some false))
            = modules.filter (fun m =>
                !(decide (someoneNeedsMe modules fuel m = some true))) := by
          apply List.filter_congr
          intro m hm
          have := hsome m hm
          cases hv : someoneNeedsMe modules fuel m with
          | none => rw [hv] at this; simp at this
          | some b => cases b <;> simp [hv]
        rw [← hres0, hfil, hcongr]
        exact foldl_eraseFirst_filter
          (fun m => decide (someoneNeedsMe modules fuel m = some true)) modules
      intro m hm
      rw [hres, List.mem_filter]
      constructor
      · rintro ⟨-, hdec⟩
        exact someoneNeedsMe_true fuel modules m (by simpa using hdec)
      · intro hk
        refine ⟨hm, ?_⟩
        have := hsome m hm
        cases hv : someoneNeedsMe modules fuel m with
        | none => rw [hv] at this; simp at this
        | some b =>
          cases b with
          | true => simp [hv]
          | false => exact absurd hk (someoneNeedsMe_false fuel modules m hv)

/-- Build list of the testable property from §8: a root A depending on B,
and C, whose root status has been cleared, depending on D. -/
def exA : Module := ⟨"A", none, none, none, none, none, ["B"], none, none⟩

/-- Module B, added as a dependency of A. -/
def exB : Module := ⟨"B", none, none, none, none, none, [], some ("A"), none⟩

/-- Module C with cleared root status (its added_by is not the manual marker). -/
def exC : Module := ⟨"C", none, none, none, none, none, ["D"], some ("someone"), none⟩

/-- Module D, added as a dependency of C. -/
def exD : Module := ⟨"D", none, none, none, none, none, [], some ("C"), none⟩

/-- The four-module build list of the scenario. -/
def exModules : List Module := [exA, exB, exC, exD]

/-- Witness for the amended C2 on the §8 scenario: pruning removes exactly
C and D and keeps exactly A and B, which the amended theorem characterises. -/
theorem clean_unused_removes_exactly_code_unreachable_witness :
    cleanUnusedModules true 10 exModules = .ok [exA, exB] ∧
    (exB ∈ [exA, exB] ↔ CodeKeep exModules exB) ∧
    (exD ∈ [exA, exB] ↔ CodeKeep exModules exD) := by
  refine ⟨by decide, ?_, ?_⟩
  · exact clean_unused_removes_exactly_code_unreachable 10 exModules [exA, exB]
      (by decide) (by decide) exB (by decide)
  · exact clean_unused_removes_exactly_code_unreachable 10 exModules [exA, exB]
      (by decide) (by decide) exD (by decide)

/-- First module of the C2 counterexample: not a root, depends on m, and is
itself depended on by nobody, so it is unreachable; crucially it precedes y
in the build list. -/
def cexX : Module := ⟨"x", none, none, none, none, none, ["m"], some ("dep"), none⟩

/-- Second module of the C2 counterexample: a root that depends on m. -/
def cexY : Module := ⟨"y", none, none, none, none, none, ["m"], none, none⟩

/-- Third module of the C2 counterexample: not a root; reachable per the
claim via the root y, but the code only consults the first dependent x. -/
def cexM : Module := ⟨"m", none, none, none, none, none, [], some ("x"), none⟩

/-- Build list of the C2 counterexample. -/
def cexModules : List Module := [cexX, cexY, cexM]

/-- C2 counterexample: m is reachable in the sense of the claim, since the
root y lists it among its dependencies, yet prune with batch confirmation
removes m from the build list: the recursion inspects only the FIRST module
in build-list order that lists m among its dependencies, here the
unreachable x. -/
theorem clean_unused_spec_reachability_cex :
    SpecReachable cexModules cexM ∧
    cleanUnusedModules true 10 cexModules = .ok [cexY] := by
  constructor
  · exact .dep cexM cexY (by decide) (by decide) (.root cexY (by decide))
  · decide

/-- Modules of the C3 failing input: a dependency two-cycle between the
non-root modules a and b. -/
def cycA : Module := ⟨"a", none, none, none, none, none, ["b"], some ("b"), none⟩

/-- Second module of the dependency two-cycle. -/
def cycB : Module := ⟨"b", none, none, none, none, none, ["a"], some ("a"), none⟩

/-- The cyclic build list. -/
def cycModules : List Module := [cycA, cycB]

/-- C3: on the cyclic build list the reachability recursion of prune never
returns, whatever the recursion budget, and the whole prune operation
diverges with it; the untracked recursion of the code cannot terminate on a
dependency cycle among non-root modules. -/
theorem someone_needs_me_cycle_divergence :
    ∀ fuel : Nat,
      someoneNeedsMe cycModules fuel cycA = none ∧
      someoneNeedsMe cycModules fuel cycB = none ∧
      ∀ answerYes : Bool, cleanUnusedModules answerYes fuel cycModules = .diverge := by
  intro fuel
  induction fuel with
  | zero => decide
  | succ n ih =>
    have hrA : isRoot cycA = false := by decide
    have hrB : isRoot cycB = false := by decide
    have hfA : firstDependent cycModules cycA.name = some cycB := by decide
    have hfB : firstDependent cycModules cycB.name = some cycA := by decide
    have hA : someoneNeedsMe cycModules (n + 1) cycA = none := by
      unfold someoneNeedsMe
      rw [if_neg (by simp [hrA]), hfA]
      exact ih.2.1
    have hB : someoneNeedsMe cycModules (n + 1) cycB = none := by
      unfold someoneNeedsMe
      rw [if_neg (by simp [hrB]), hfB]
      exact ih.1
    refine ⟨hA, hB, ?_⟩
    intro answerYes
    unfold cleanUnusedModules
    rw [if_neg (by decide)]
    have : pruneCandidates (n + 1) cycModules = none := by
      unfold pruneCandidates
      show pruneSelect cycModules (n + 1) [cycA, cycB] = none
      unfold pruneSelect
      rw [hA]
    rw [this]

/-! ## Remove (remove_command, commands.py lines 401-510) -/

/-- Kernel-computable check that the second character list begins with the
first one. -/
def listStarts : List Char → List Char → Bool
  | [], _ => true
  | _ :: _, [] => false
  | p :: ps, c :: cs => p == c && listStarts ps cs

/-- Embedding of `str.startswith` for a single pattern. -/
def strStarts (s pat : String) : Bool :=
  listStarts pat.toList s.toList

/-- Embedding of `str.endswith` for a single pattern. -/
def strEnds (s pat : String) : Bool :=
  listStarts pat.toList.reverse s.toList.reverse

/-- Modelled from the spec: the URI scheme markers that make remove (and add)
treat an identifier as URL-style rather than as a module name. -/
def SUPPORTED_URI_SCHEMES : List String :=
  ["https://", "ssh://", "git://"]

/-- Embedding of `name.startswith(SUPPORTED_URI_SCHEMES)`. -/
def startsWithUriScheme (s : String) : Bool :=
  SUPPORTED_URI_SCHEMES.any (fun pat => strStarts s pat)

/-- External collaborators of remove_command: the per-module removal prompt,
the input-data deletion prompt, the filesystem, and the batch prompt that the
prune triggered afterwards shows. Prompt answers are the boolean outcome of
the yes/y comparison the code performs on the collaborator reply. -/
structure RemoveEnv where
  answerRemove : String → Bool
  answerInputDelete : String → Bool
  isFile : String → Bool
  pathExists : String → Bool
  answerPruneBatch : Bool

/-- Embedding of `_get_modules_by_url`: all modules whose url key equals the
identifier. -/
def getModulesByUrl (modules : List Module) (name : String) : List Module :=
  modules.filter (fun m => decide (m.url = some name))

/-- Embedding of `_get_module_by_name`, including the local-path fixup that
puts a dot-slash in front of an existing .cf file path. -/
def getModuleByName (env : RemoveEnv) (modules : List Module) (name : String) : Option Module :=
  let name2 := if !(strStarts name ("./")) && strEnds name (".cf") && env.pathExists name
    then "./" ++ name else name
  modules.find? (fun m => decide (m.name = name2))

/-- Outcome record of a mutating command (exit code, changed flag, message
lines, touched files); the message is modelled as its list of lines, so the
changed test num_lines greater than zero keeps its exact meaning. -/
structure Result where
  rc : Nat
  changed : Bool
  msgLines : List String
  files : List String
deriving DecidableEq, Repr

/-- Mutable state of the remove loop: the build list, the removal counter,
the message lines and the touched files. -/
structure RemoveState where
  modules : List Module
  numRemoved : Nat
  msgLines : List String
  files : List String
deriving DecidableEq, Repr

/-- Embedding of one confirmed removal: on a yes answer the module is
deleted from the build list with `list.remove` and the message and counter
grow; on a no answer nothing changes. The dependent list shown inside the
prompt text only decorates the question, so it does not appear here. -/
def removeOneIfConfirmed (env : RemoveEnv) (st : RemoveState) (m : Module) : RemoveState :=
  if env.answerRemove m.name then
    ⟨eraseFirst st.modules m, st.numRemoved + 1,
     st.msgLines ++ ["Removed module " ++ sq ++ m.name ++ sq], st.files⟩
  else st

/-- Embedding of the main loop of remove_command over the requested
identifiers: a URL-style identifier selects every module with that url and
raises CFBSExitError when there is none; a plain name selects at most one
module and just prints a not-found line when there is none; afterwards the
identifier is offered for input-data deletion. -/
def removeProcess (env : RemoveEnv) : RemoveState → List String → Except String RemoveState
  | st, [] => .ok st
  | st, name :: rest =>
    let step : Except String RemoveState :=
      if startsWithUriScheme name then
        let hits := getModulesByUrl st.modules name
        if hits.isEmpty then
          .error ("Could not find module with URL " ++ sq ++ name ++ sq)
        else .ok (hits.foldl (removeOneIfConfirmed env) st)
      else
        match getModuleByName env st.modules name with
        | some m => .ok (removeOneIfConfirmed env st m)
        | none => .ok st
    match step with
    | .error e => .error e
    | .ok st1 =>
      let inputPath := "./" ++ name ++ "/input.json"
      let st2 :=
        if env.isFile inputPath && env.answerInputDelete name then
          ⟨st1.modules, st1.numRemoved,
           st1.msgLines ++ ["Removed input data for module " ++ sq ++ name ++ sq],
           st1.files ++ [inputPath]⟩
        else st1
      removeProcess env st2 rest

/-- Embedding of remove_command: run the loop, build the Result with the
changed flag (at least one message line), and when at least one module was
removed invoke prune directly, swallowing its no-commit signal; the final
build list reflects what prune may additionally have removed. `none` models
divergence of the prune recursion; `Except.error` models the propagating
CFBSExitError. -/
def removeCommand (env : RemoveEnv) (fuel : Nat) (modules : List Module)
    (toRemove : List String) : Option (Except String (List Module × Result)) :=
  match removeProcess env ⟨modules, 0, [], []⟩ toRemove with
  | .error e => some (.error e)
  | .ok st =>
    let r : Result := ⟨0, decide (0 < st.msgLines.length), st.msgLines, st.files⟩
    if 0 < st.numRemoved then
      match cleanUnusedModules env.answerPruneBatch fuel st.modules with
      | .diverge => none
      | .signalNoCommit => some (.ok (st.modules, r))
      | .ok mods2 => some (.ok (mods2, r))
    else some (.ok (st.modules, r))

/-- Modelled from the spec: the transaction wrapper around a mutating command
creates exactly one commit when the outcome reports changed = true and none
otherwise; a propagating error also commits nothing. The prune invoked from
inside remove_command is a direct call, not wrapped, so it never contributes
a commit of its own there. -/
def wrapperCommits : Except String (List Module × Result) → Nat
  | .error _ => 0
  | .ok (_, r) => if r.changed then 1 else 0

lemma foldl_removeOne_all_declined (env : RemoveEnv) :
    ∀ (l : List Module) (st : RemoveState),
      (∀ m ∈ l, env.answerRemove m.name = false) →
      l.foldl (removeOneIfConfirmed env) st = st := by
  intro l
  induction l with
  | nil => intro st _; rfl
  | cons x xs ih =>
    intro st hno
    have hx : env.answerRemove x.name = false := hno x (List.mem_cons_self x xs)
    have h1 : removeOneIfConfirmed env st x = st := by
      unfold removeOneIfConfirmed
      rw [hx]
      simp
    simp only [List.foldl_cons, h1]
    exact ih st (fun m hm => hno m (List.mem_cons_of_mem x hm))

/-- C8: a remove invocation whose identifier is a source URL matching modules
in the build list, all of whose per-module confirmation prompts are answered
no, leaves the build list unchanged, returns an outcome with changed = false,
and therefore receives no commit from the transaction wrapper. -/
theorem remove_url_all_declined_no_change (env : RemoveEnv) (fuel : Nat)
    (modules : List Module) (u : String)
    (hscheme : startsWithUriScheme u = true)
    (hmatch : getModulesByUrl modules u ≠ [])
    (hno : ∀ m ∈ getModulesByUrl modules u, env.answerRemove m.name = false)
    (hnoinput : env.isFile ("./" ++ u ++ "/input.json") = false) :
    removeCommand env fuel modules [u] = some (.ok (modules, ⟨0, false, [], []⟩)) ∧
    wrapperCommits (.ok (modules, ⟨0, false, [], []⟩)) = 0 := by
  have hproc : removeProcess env ⟨modules, 0, [], []⟩ [u] = .ok ⟨modules, 0, [], []⟩ := by
    unfold removeProcess
    rw [hscheme]
    simp only [if_true]
    cases hl : getModulesByUrl modules u with
    | nil => exact absurd hl hmatch
    | cons a as =>
      have hfold : (getModulesByUrl modules u).foldl (removeOneIfConfirmed env)
          ⟨modules, 0, [], []⟩ = ⟨modules, 0, [], []⟩ :=
        foldl_removeOne_all_declined env _ _ hno
      rw [hl] at hfold
      simp only [hl, List.isEmpty_cons, Bool.false_eq_true, if_false, hfold, hnoinput,
        Bool.false_and, if_false]
      rfl
  constructor
  · unfold removeCommand
    rw [hproc]
    simp
  · rfl

/-- Two modules sharing one source URL, for the C8 witness. -/
def w8a : Module := ⟨"m1", none, none, some ("https://u"), none, none, [], none, none⟩

/-- Second module with the same source URL. -/
def w8b : Module := ⟨"m2", none, none, some ("https://u"), none, none, [], none, none⟩

/-- Environment whose prompts all answer no and whose filesystem is empty. -/
def envNo : RemoveEnv := ⟨fun _ => false, fun _ => false, fun _ => false, fun _ => false, true⟩

/-- Witness for C8: the URL matches two modules, both confirmations are
declined, the build list is unchanged, changed = false, zero commits. -/
theorem remove_url_all_declined_no_change_witness :
    removeCommand envNo 5 [w8a, w8b] ["https://u"] =
      some (.ok ([w8a, w8b], ⟨0, false, [], []⟩)) ∧
    wrapperCommits (.ok ([w8a, w8b], ⟨0, false, [], []⟩)) = 0 :=
  remove_url_all_declined_no_change envNo 5 [w8a, w8b] ("https://u")
    (by decide) (by decide) (fun m _ => rfl) rfl

lemma removeCommand_rc_zero (env : RemoveEnv) (fuel : Nat) (modules : List Module)
    (names : List String) :
    ∀ mods2 r, removeCommand env fuel modules names = some (.ok (mods2, r)) → r.rc = 0 := by
  intro mods2 r h
  unfold removeCommand at h
  cases hp : removeProcess env ⟨modules, 0, [], []⟩ names with
  | error e => rw [hp] at h; simp at h
  | ok st =>
    rw [hp] at h
    dsimp only at h
    by_cases hn : 0 < st.numRemoved
    · rw [if_pos hn] at h
      cases hc : cleanUnusedModules env.answerPruneBatch fuel st.modules with
      | diverge => rw [hc] at h; simp at h
      | signalNoCommit =>
        rw [hc] at h
        simp only [Option.some.injEq, Except.ok.injEq, Prod.mk.injEq] at h
        rw [← h.2]
      | ok mods3 =>
        rw [hc] at h
        simp only [Option.some.injEq, Except.ok.injEq, Prod.mk.injEq] at h
        rw [← h.2]
    · rw [if_neg hn] at h
      simp only [Option.some.injEq, Except.ok.injEq, Prod.mk.injEq] at h
      rw [← h.2]

/-- C9: remove handles an identifier that matches no module asymmetrically:
an identifier carrying a supported URI scheme that matches no module url
raises the fatal could-not-find error, aborting the whole invocation,
whereas a plain name that matches nothing only prints a not-found line and
processing continues with the remaining identifiers, with exit code 0. -/
theorem remove_missing_identifier_asymmetry :
    (∀ (env : RemoveEnv) (fuel : Nat) (modules : List Module) (u : String)
        (rest : List String),
      startsWithUriScheme u = true → getModulesByUrl modules u = [] →
      removeCommand env fuel modules (u :: rest) =
        some (.error ("Could not find module with URL " ++ sq ++ u ++ sq))) ∧
    (∀ (env : RemoveEnv) (fuel : Nat) (modules : List Module) (name : String)
        (rest : List String),
      startsWithUriScheme name = false → getModuleByName env modules name = none →
      env.isFile ("./" ++ name ++ "/input.json") = false →
      removeCommand env fuel modules (name :: rest) = removeCommand env fuel modules rest ∧
      ∀ mods2 r, removeCommand env fuel modules rest = some (.ok (mods2, r)) → r.rc = 0) := by
  constructor
  · intro env fuel modules u rest hscheme hempty
    have hproc : removeProcess env ⟨modules, 0, [], []⟩ (u :: rest) =
        .error ("Could not find module with URL " ++ sq ++ u ++ sq) := by
      unfold removeProcess
      rw [hscheme]
      simp [hempty]
    unfold removeCommand
    rw [hproc]
  · intro env fuel modules name rest hscheme hnone hnoinput
    have hproc : removeProcess env ⟨modules, 0, [], []⟩ (name :: rest) =
        removeProcess env ⟨modules, 0, [], []⟩ rest := by
      conv_lhs => unfold removeProcess
      rw [hscheme]
      simp only [Bool.false_eq_true, if_false, hnone, hnoinput, Bool.false_and]
    constructor
    · unfold removeCommand
      rw [hproc]
    · exact removeCommand_rc_zero env fuel modules rest

/-- Witness for C9 at concrete inputs: a schemeful URL matching nothing is a
fatal error, a plain unknown name just skips to the (empty) remaining list. -/
theorem remove_missing_identifier_asymmetry_witness :
    removeCommand envNo 5 [w8a] ["https://nosuch"] =
      some (.error ("Could not find module with URL " ++ sq ++ "https://nosuch" ++ sq)) ∧
    removeCommand envNo 5 [w8a] ["nosuch"] = removeCommand envNo 5 [w8a] [] :=
  ⟨remove_missing_identifier_asymmetry.1 envNo 5 [w8a] ("https://nosuch") []
      (by decide) (by decide),
   (remove_missing_identifier_asymmetry.2 envNo 5 [w8a] ("nosuch") []
      (by decide) (by decide) rfl).1⟩

lemma removeOne_lines_ge (env : RemoveEnv) (st : RemoveState) (m : Module)
    (h : st.numRemoved ≤ st.msgLines.length) :
    (removeOneIfConfirmed env st m).numRemoved ≤
      (removeOneIfConfirmed env st m).msgLines.length := by
  unfold removeOneIfConfirmed
  by_cases ha : env.answerRemove m.name = true
  · rw [if_pos ha]
    simpa using h
  · rw [if_neg ha]
    exact h

lemma foldl_removeOne_lines_ge (env : RemoveEnv) :
    ∀ (l : List Module) (st : RemoveState),
      st.numRemoved ≤ st.msgLines.length →
      (l.foldl (removeOneIfConfirmed env) st).numRemoved ≤
        (l.foldl (removeOneIfConfirmed env) st).msgLines.length := by
  intro l
  induction l with
  | nil => intro st h; exact h
  | cons x xs ih =>
    intro st h
    simp only [List.foldl_cons]
    exact ih _ (removeOne_lines_ge env st x h)

lemma removeProcess_lines_ge (env : RemoveEnv) :
    ∀ (names : List String) (st st' : RemoveState),
      removeProcess env st names = .ok st' →
      st.numRemoved ≤ st.msgLines.length →
      st'.numRemoved ≤ st'.msgLines.length := by
  intro names
  induction names with
  | nil =>
    intro st st' h hle
    unfold removeProcess at h
    cases h
    exact hle
  | cons name rest ih =>
    intro st st' h hle
    unfold removeProcess at h
    by_cases hscheme : startsWithUriScheme name = true
    · rw [hscheme] at h
      simp only [if_true] at h
      by_cases hemp : (getModulesByUrl st.modules name).isEmpty = true
      · rw [if_pos hemp] at h
        dsimp only at h
        exact absurd h (by simp)
      · rw [if_neg hemp] at h
        dsimp only at h
        set st1 := (getModulesByUrl st.modules name).foldl (removeOneIfConfirmed env) st with hst1
        have h1 : st1.numRemoved ≤ st1.msgLines.length :=
          foldl_removeOne_lines_ge env _ st hle
        by_cases hin : (env.isFile ("./" ++ name ++ "/input.json")
            && env.answerInputDelete name) = true
        · rw [if_pos hin] at h
          refine ih _ st' h (le_trans h1 ?_)
          simp
        · rw [if_neg hin] at h
          exact ih _ st' h h1
    · rw [Bool.not_eq_true] at hscheme
      rw [hscheme] at h
      simp only [Bool.false_eq_true, if_false] at h
      cases hm : getModuleByName env st.modules name with
      | some m =>
        rw [hm] at h
        dsimp only at h
        have h1 := removeOne_lines_ge env st m hle
        by_cases hin : (env.isFile ("./" ++ name ++ "/input.json")
            && env.answerInputDelete name) = true
        · rw [if_pos hin] at h
          refine ih _ st' h (le_trans h1 ?_)
          simp
        · rw [if_neg hin] at h
          exact ih _ st' h h1
      | none =>
        rw [hm] at h
        dsimp only at h
        by_cases hin : (env.isFile ("./" ++ name ++ "/input.json")
            && env.answerInputDelete name) = true
        · rw [if_pos hin] at h
          refine ih _ st' h (le_trans hle ?_)
          simp
        · rw [if_neg hin] at h
          exact ih _ st' h hle

/-- C6 (amended): on a nonempty build list prune raises the no-commit signal
when it finds no removal candidates, instead of returning normally (on an
empty build list it returns normally before looking for candidates); remove,
after removing at least one module, invokes prune directly and absorbs that
signal, returning its own changed outcome, so the whole remove invocation
produces exactly one commit and prune contributes none. -/
theorem remove_absorbs_prune_no_commit_signal :
    (∀ (answerYes : Bool) (fuel : Nat) (modules : List Module), modules ≠ [] →
      pruneCandidates fuel modules = some [] →
      cleanUnusedModules answerYes fuel modules = .signalNoCommit) ∧
    (∀ (env : RemoveEnv) (fuel : Nat) (modules : List Module) (names : List String)
        (st : RemoveState),
      removeProcess env ⟨modules, 0, [], []⟩ names = .ok st →
      0 < st.numRemoved →
      cleanUnusedModules env.answerPruneBatch fuel st.modules = .signalNoCommit →
      removeCommand env fuel modules names =
        some (.ok (st.modules, ⟨0, true, st.msgLines, st.files⟩)) ∧
      wrapperCommits (.ok (st.modules, ⟨0, true, st.msgLines, st.files⟩)) = 1) := by
  constructor
  · intro answerYes fuel modules hne hcand
    unfold cleanUnusedModules
    rw [if_neg (by simpa using hne), hcand]
    rfl
  · intro env fuel modules names st hproc hpos hsig
    have hlines : 0 < st.msgLines.length :=
      lt_of_lt_of_le hpos (removeProcess_lines_ge env names ⟨modules, 0, [], []⟩ st hproc
        (le_refl 0))
    have hch : decide (0 < st.msgLines.length) = true := by simpa using hlines
    constructor
    · unfold removeCommand
      rw [hproc]
      dsimp only
      rw [if_pos hpos, hsig, hch]
    · unfold wrapperCommits
      simp

/-- C6 counterexample: on an empty build list prune finds no removal
candidates and still returns normally, because the early return for an empty
build list precedes both the candidate computation and the signal. -/
theorem clean_empty_build_no_signal_cex :
    pruneCandidates 1 ([] : List Module) = some [] ∧
    cleanUnusedModules true 1 ([] : List Module) = .ok [] := by
  decide

/-- Environment for the C6 witness: removal prompts answered yes. -/
def envYes : RemoveEnv := ⟨fun _ => true, fun _ => false, fun _ => false, fun _ => false, true⟩

/-- Root module kept by the C6 witness scenario. -/
def w6a : Module := ⟨"a", none, none, none, none, none, [], none, none⟩

/-- Root module removed on request in the C6 witness scenario. -/
def w6b : Module := ⟨"b", none, none, none, none, none, [], none, none⟩

/-- Witness for C6: removing b leaves only the root a, the prune triggered by
remove finds no candidates and signals, remove absorbs the signal and ends
with its own changed outcome; the wrapper then makes exactly one commit. -/
theorem remove_absorbs_prune_no_commit_signal_witness :
    removeCommand envYes 5 [w6a, w6b] ["b"] =
      some (.ok ([w6a], ⟨0, true, ["Removed module " ++ sq ++ "b" ++ sq], []⟩)) ∧
    wrapperCommits (.ok ([w6a], ⟨0, true, ["Removed module " ++ sq ++ "b" ++ sq], []⟩)) = 1 :=
  remove_absorbs_prune_no_commit_signal.2 envYes 5 [w6a, w6b] ["b"]
    ⟨[w6a], 1, ["Removed module " ++ sq ++ "b" ++ sq], []⟩
    rfl (by decide) (by decide)

/-! ## Fetch and stage pipeline (_download_dependencies, commands.py lines 754-835) -/

/-- Modelled from the spec: the archive suffixes the pipeline recognises on a
source URL. -/
def SUPPORTED_ARCHIVES : List String :=
  [".tar.gz", ".tgz", ".zip"]

/-- Embedding of `url.endswith(SUPPORTED_ARCHIVES)`. -/
def endsWithArchive (url : String) : Bool :=
  SUPPORTED_ARCHIVES.any (fun pat => strEnds url pat)

/-- Embedding of strip_right as used here: drop the trailing repository
suffix when present (the spec: a trailing repository-suffix is stripped). -/
def strip_right (s pat : String) : String :=
  if strEnds s pat then String.mk (s.toList.take (s.toList.length - pat.toList.length))
  else s

/-- Modelled from the spec: the cache is content-addressed by commit hash
under a fixed cache root. -/
def get_download_path (m : Module) : String :=
  "~/.cfengine/cfbs/downloads/" ++ m.commit.getD ("")

/-- Modelled from the spec: a commit must be a full revision identifier,
validated by shape alone, not existence: forty hexadecimal digits. -/
def is_a_commit_hash (s : String) : Bool :=
  (s.toList.length == 40) &&
    s.toList.all (fun c => c.isDigit || (decide ('a' ≤ c) && decide (c ≤ 'f')))

/-- Environment of one pipeline run: the cache state before the run, the
remote version-to-checksum catalog (name, then version, to archive sha), the
reachability of the catalog itself, and the two flags of the command. -/
structure DownloadEnv where
  pathExists : String → Bool
  catalog : String → String → Option String
  networkOk : Bool
  redownload : Bool
  ignoreVersions : Bool

/-- Embedding of `url = module.get("url") or module["repo"]` followed by the
suffix strip. -/
def effectiveUrl (m : Module) : String :=
  strip_right (m.url.getD (m.repo.getD (""))) (".git")

/-- The possibly subdirectory-qualified cached path of a module. -/
def moduleDirOf (m : Module) : String :=
  match m.subdirectory with
  | some sub => get_download_path m ++ "/" ++ sub
  | none => get_download_path m

/-- Effective cache-existence test: a forced redownload wipes the cached
entry of the module before any existence check of this iteration. -/
def cachedAt (env : DownloadEnv) (p : String) : Bool :=
  !env.redownload && env.pathExists p

/-- Width-3 zero padding, the `%03d` of the staging directory name. -/
def natPad3 (n : Nat) : String :=
  if n < 10 then "00" ++ toString n
  else if n < 100 then "0" ++ toString n
  else toString n

/-- Modelled from the spec: a local module is copied into its numbered
staged slot, whose name is derived from the 1-based sequence number and the
module name. -/
def localModuleTarget (m : Module) (counter : Nat) : String :=
  "out/steps/" ++ natPad3 counter ++ "_" ++ m.name ++ "_local/"

/-- Staged directory name of a module at a sequence position: the local slot
for a local module, and `out/steps/%03d_%s_%s/` over counter, name and
commit for a remote one. -/
def stagedTarget (m : Module) (counter : Nat) : String :=
  if strStarts m.name ("./") then localModuleTarget m counter
  else "out/steps/" ++ natPad3 counter ++ "_" ++ m.name ++ "_" ++ m.commit.getD ("") ++ "/"

/-- Embedding of one iteration of the `_download_dependencies` loop for the
module at the given 1-based counter: either the staged directory name the
iteration creates, or the CFBSExitError message it raises. Successful
network fetches, clones and copies are modelled as succeeding; the error
conditions are exactly those of the code. -/
def processModule (env : DownloadEnv) (m : Module) (counter : Nat) : Except String String :=
  if strStarts m.name ("./") then .ok (stagedTarget m counter)
  else
    match m.commit with
    | none => .error ("module " ++ m.name ++ " must have a commit property")
    | some commit =>
      if is_a_commit_hash commit = false then
        .error (sq ++ commit ++ sq ++ " is not a commit reference")
      else
        let url := effectiveUrl m
        if cachedAt env (moduleDirOf m) then .ok (stagedTarget m counter)
        else if endsWithArchive url then
          if cachedAt env (get_download_path m) && m.subdirectory.isSome then
            .error ("Subdirectory " ++ sq ++ m.subdirectory.getD ("") ++ sq ++
              " for module " ++ sq ++ m.name ++ sq ++ " was not found in fetched archive " ++
              sq ++ url ++ sq ++ ": Please check cfbs.json for possible typos.")
          else .ok (stagedTarget m counter)
        else if m.index.isSome || m.url.isSome || env.ignoreVersions then
          if cachedAt env (get_download_path m) && m.subdirectory.isSome then
            .error ("Subdirectory " ++ sq ++ m.subdirectory.getD ("") ++ sq ++
              " for module " ++ sq ++ m.name ++ sq ++ " was not found in cloned repository " ++
              sq ++ url ++ sq ++ ": Please check cfbs.json for possible typos.")
          else .ok (stagedTarget m counter)
        else
          if env.networkOk = false then
            .error ("Downloading CFEngine Build Module Index failed - check your Wi-Fi / network settings.")
          else
            match m.version.bind (fun v => env.catalog m.name v) with
            | none => .error ("Cannot verify checksum of the " ++ sq ++ m.name ++ sq ++ " module")
            | some _ => .ok (stagedTarget m counter)

/-- Embedding of the whole `_download_dependencies` loop from a given
counter: the list of staged directory names created, in order, and the
message of the first raised error, if any; an error stops the loop at once,
so no later module contributes a staged directory. -/
def downloadDeps (env : DownloadEnv) : List Module → Nat → List String × Option String
  | [], _ => ([], none)
  | m :: rest, counter =>
    match processModule env m counter with
    | .error e => ([], some e)
    | .ok target =>
      let r := downloadDeps env rest (counter + 1)
      (target :: r.1, r.2)

/-- The pipeline as called by download_command and build_command: the
counter starts at 1. -/
def downloadDependencies (env : DownloadEnv) (modules : List Module) :
    List String × Option String :=
  downloadDeps env modules 1

lemma processModule_ok_target (env : DownloadEnv) (m : Module) (counter : Nat)
    (t : String) (h : processModule env m counter = .ok t) :
    t = stagedTarget m counter := by
  unfold processModule at h
  dsimp only at h
  repeat' split at h
  all_goals first
    | exact (Except.ok.inj h).symm
    | exact Except.noConfusion h

lemma downloadDeps_cons_error (env : DownloadEnv) (m : Module) (rest : List Module)
    (c : Nat) (e : String) (hp : processModule env m c = .error e) :
    downloadDeps env (m :: rest) c = ([], some e) := by
  unfold downloadDeps
  rw [hp]

lemma downloadDeps_cons_ok (env : DownloadEnv) (m : Module) (rest : List Module)
    (c : Nat) (target : String) (hp : processModule env m c = .ok target) :
    downloadDeps env (m :: rest) c =
      (target :: (downloadDeps env rest (c + 1)).1, (downloadDeps env rest (c + 1)).2) := by
  conv_lhs => unfold downloadDeps
  rw [hp]

lemma downloadDeps_append_ok (env : DownloadEnv) :
    ∀ (pre rest : List Module) (c : Nat) (ts : List String),
      downloadDeps env pre c = (ts, none) →
      downloadDeps env (pre ++ rest) c =
        (ts ++ (downloadDeps env rest (c + pre.length)).1,
         (downloadDeps env rest (c + pre.length)).2) := by
  intro pre
  induction pre with
  | nil =>
    intro rest c ts h
    unfold downloadDeps at h
    simp only [Prod.mk.injEq] at h
    rw [← h.1]
    simp
  | cons m pre' ih =>
    intro rest c ts h
    cases hp : processModule env m c with
    | error e =>
      rw [downloadDeps_cons_error env m pre' c e hp] at h
      simp at h
    | ok target =>
      rw [downloadDeps_cons_ok env m pre' c target hp] at h
      simp only [Prod.mk.injEq] at h
      have h2 : downloadDeps env pre' (c + 1) = ((downloadDeps env pre' (c + 1)).1, none) := by
        rw [← h.2]
      show downloadDeps env (m :: (pre' ++ rest)) c = _
      rw [downloadDeps_cons_ok env m (pre' ++ rest) c target hp]
      rw [ih rest (c + 1) _ h2]
      dsimp only
      rw [← h.1]
      simp only [List.cons_append, List.length_cons]
      rw [show c + (pre'.length + 1) = c + 1 + pre'.length by omega]

lemma downloadDeps_targets (env : DownloadEnv) :
    ∀ (mods : List Module) (c : Nat),
      ((downloadDeps env mods c).1.length ≤ mods.length) ∧
      ((downloadDeps env mods c).2 = none → (downloadDeps env mods c).1.length = mods.length) ∧
      ∀ i (hm : i < mods.length), i < (downloadDeps env mods c).1.length →
        (downloadDeps env mods c).1.get? i = some (stagedTarget (mods.get ⟨i, hm⟩) (c + i)) := by
  intro mods
  induction mods with
  | nil =>
    intro c
    refine ⟨by simp [downloadDeps], by simp [downloadDeps], ?_⟩
    intro i hm
    simp at hm
  | cons m rest ih =>
    intro c
    cases hp : processModule env m c with
    | error e =>
      have hdd := downloadDeps_cons_error env m rest c e hp
      refine ⟨?_, ?_, ?_⟩
      · rw [hdd]; simp
      · rw [hdd]; simp
      · intro i hm hi
        rw [hdd] at hi
        simp at hi
    | ok target =>
      have htgt : target = stagedTarget m c := processModule_ok_target env m c target hp
      have hdd := downloadDeps_cons_ok env m rest c target hp
      obtain ⟨ih1, ih2, ih3⟩ := ih (c + 1)
      refine ⟨?_, ?_, ?_⟩
      · rw [hdd]
        simpa using ih1
      · rw [hdd]
        intro h2
        simpa using ih2 h2
      · intro i hm hi
        rw [hdd] at hi ⊢
        cases i with
        | zero =>
          simp [htgt]
        | succ j =>
          have hi' : j < (downloadDeps env rest (c + 1)).1.length := by
            simpa using hi
          have hm' : j < rest.length := by simpa using hm
          have := ih3 j hm' hi'
          simp only [List.get?_cons_succ, List.get_cons_succ]
          rw [this]
          congr 2
          omega

/-- C7: the fetch-and-stage pipeline walks the build list strictly in order
and gives every module, local and remote alike, the 1-based consecutive
sequence number of its position, which determines its staged directory name
together with the module record itself; since the run is a pure function of
the build list and the cache state, repeated runs on the same inputs produce
identical staged directory names and sequence numbers. -/
theorem download_sequence_numbers (env : DownloadEnv) (mods : List Module)
    (ts : List String) (err : Option String)
    (h : downloadDependencies env mods = (ts, err)) :
    ts.length ≤ mods.length ∧
    (err = none → ts.length = mods.length) ∧
    ∀ i (hi : i < ts.length) (hm : i < mods.length),
      ts.get ⟨i, hi⟩ = stagedTarget (mods.get ⟨i, hm⟩) (i + 1) := by
  obtain ⟨h1, h2, h3⟩ := downloadDeps_targets env mods 1
  unfold downloadDependencies at h
  rw [h] at h1 h2 h3
  refine ⟨h1, h2, ?_⟩
  intro i hi hm
  have := h3 i hm hi
  rw [List.get?_eq_get hi] at this
  have := Option.some.inj this
  rwa [Nat.add_comm 1 i] at this

/-- Environment of the pipeline witnesses: empty cache, empty checksum
catalog, reachable network, no forced redownload, versions enforced. -/
def envDl : DownloadEnv :=
  ⟨fun _ => false, fun _ _ => none, true, false, false⟩

/-- A forty-character commit hash for the pipeline witnesses. -/
def c40 : String := "aaaaaaaaaaaaaaaaaaaaaaaaaaaaaaaaaaaaaaaa"

/-- Local module of the C7 witness. -/
def wLocal : Module := ⟨"./local", none, none, none, none, none, [], none, none⟩

/-- URL-added remote module of the C7 witness (cloned, not archived). -/
def wRem : Module :=
  ⟨"mod", none, some c40, some ("https://example/repo"), none, none, [], none, none⟩

/-- Staged directory names the C7 witness run produces. -/
def wTargets : List String :=
  ["out/steps/001_./local_local/", "out/steps/002_mod_" ++ c40 ++ "/"]

/-- Witness for C7: a two-module build list is staged as 001 and 002, and
the second staged name is the one derived from position 2. -/
theorem download_sequence_numbers_witness :
    wTargets.get ⟨1, by decide⟩ = stagedTarget wRem (1 + 1) ∧ wTargets.length = 2 := by
  have h : downloadDependencies envDl [wLocal, wRem] = (wTargets, none) := by decide
  have hmain := download_sequence_numbers envDl [wLocal, wRem] wTargets none h
  exact ⟨hmain.2.2 1 (by decide) (by decide), hmain.2.1 rfl⟩

/-- C4: in the fetch-and-stage pipeline a remote module with a missing
commit key, with a commit that is not shaped like a full revision hash, or,
on the registry-governed path, with no checksum entry for its name and
version in the remote versions catalog, raises a fatal error (the last with
the cannot-verify-checksum message) that aborts the whole pipeline at once:
the staged directories are exactly those of the earlier modules, none is
created for the failing module, and no later module is processed. -/
theorem download_fatal_cases :
    (∀ (env : DownloadEnv) (pre post : List Module) (ts : List String) (m : Module),
      downloadDeps env pre 1 = (ts, none) →
      strStarts m.name ("./") = false → m.commit = none →
      downloadDependencies env (pre ++ m :: post) =
        (ts, some ("module " ++ m.name ++ " must have a commit property"))) ∧
    (∀ (env : DownloadEnv) (pre post : List Module) (ts : List String) (m : Module)
        (cm : String),
      downloadDeps env pre 1 = (ts, none) →
      strStarts m.name ("./") = false → m.commit = some cm → is_a_commit_hash cm = false →
      downloadDependencies env (pre ++ m :: post) =
        (ts, some (sq ++ cm ++ sq ++ " is not a commit reference"))) ∧
    (∀ (env : DownloadEnv) (pre post : List Module) (ts : List String) (m : Module)
        (cm : String),
      downloadDeps env pre 1 = (ts, none) →
      strStarts m.name ("./") = false → m.commit = some cm → is_a_commit_hash cm = true →
      cachedAt env (moduleDirOf m) = false → endsWithArchive (effectiveUrl m) = false →
      m.index = none → m.url = none → env.ignoreVersions = false → env.networkOk = true →
      m.version.bind (fun v => env.catalog m.name v) = none →
      downloadDependencies env (pre ++ m :: post) =
        (ts, some ("Cannot verify checksum of the " ++ sq ++ m.name ++ sq ++ " module"))) := by
  have hstep : ∀ (env : DownloadEnv) (pre post : List Module) (ts : List String)
      (m : Module) (e : String),
      downloadDeps env pre 1 = (ts, none) →
      processModule env m (1 + pre.length) = .error e →
      downloadDependencies env (pre ++ m :: post) = (ts, some e) := by
    intro env pre post ts m e hpre herr
    unfold downloadDependencies
    rw [downloadDeps_append_ok env pre (m :: post) 1 ts hpre]
    have : downloadDeps env (m :: post) (1 + pre.length) = ([], some e) := by
      unfold downloadDeps
      rw [herr]
    rw [this]
    simp
  refine ⟨?_, ?_, ?_⟩
  · intro env pre post ts m hpre hrem hcommit
    refine hstep env pre post ts m _ hpre ?_
    unfold processModule
    rw [hrem, hcommit]
    simp
  · intro env pre post ts m cm hpre hrem hcommit hbad
    refine hstep env pre post ts m _ hpre ?_
    unfold processModule
    rw [hrem, hcommit]
    simp only [Bool.false_eq_true, if_false]
    rw [hbad]
    simp
  · intro env pre post ts m cm hpre hrem hcommit hgood hcache harch hidx hurl hign hnet hcat
    refine hstep env pre post ts m _ hpre ?_
    unfold processModule
    rw [hrem, hcommit]
    simp only [Bool.false_eq_true, if_false]
    rw [hgood]
    simp only [Bool.true_eq_false, if_false, if_true]
    rw [hcache, harch]
    simp only [Bool.false_eq_true, if_false]
    rw [hidx, hurl, hign]
    simp only [Option.isSome_none, Bool.or_self, Bool.or_false, Bool.false_eq_true, if_false]
    rw [hnet]
    simp only [Bool.true_eq_false, if_false, if_true]
    rw [hcat]

/-- Registry-governed module of the C4 witness: catalogued by repo with a
version, no custom index and no explicit url, and absent from the (empty)
checksum catalog of the witness environment. -/
def wReg : Module :=
  ⟨"reg", some ("1.0.0"), some c40, none, some ("https://example/reg"), none, [], none, none⟩

/-- A module after the failing one, never reached by the C4 witness run. -/
def wAfter : Module := ⟨"after", none, none, none, none, none, [], none, none⟩

/-- Witness for C4 on the checksum case: the registry module with no catalog
checksum entry aborts the run with the cannot-verify-checksum message, no
staged directory is created for it and the later module is never processed. -/
theorem download_fatal_cases_witness :
    downloadDependencies envDl [wReg, wAfter] =
      ([], some ("Cannot verify checksum of the " ++ sq ++ "reg" ++ sq ++ " module")) := by
  have := download_fatal_cases.2.2 envDl [] [wAfter] [] wReg c40
    rfl (by decide) rfl (by decide) (by decide) (by decide) rfl rfl rfl rfl rfl
  exact this

/-! ## Init (init_command, commands.py lines 127-292) -/

/-- External collaborators of init_command that influence its control flow:
whether the directory already is a cfbs project, the git argument of the
command line, the prompt answer about using git, the availability of git,
whether a git repository already exists, and the success of git init, of the
config setting and of the commit. The name, description, user-name and
user-email prompts do not influence control flow and are omitted; everything
after a successful commit (the reload, the masterfiles question and the
batched add) is abstracted into the tail exit code, during which the
manifest file persists. -/
structure InitEnv where
  alreadyRepo : Bool
  argsGit : Option Bool
  promptGitYes : Bool
  gitExists : Bool
  isGitRepo : Bool
  gitInitOk : Bool
  setConfigOk : Bool
  commitOk : Bool
  tailExit : Nat

/-- Exit code of init_command together with whether the manifest file
cfbs.json exists on disk when it returns. -/
structure InitResult where
  code : Nat
  manifestExists : Bool
deriving DecidableEq, Repr

/-- The manifest write `open(cfbs_filename(), "w")`: after it the file exists. -/
def writeManifest (_fs : Bool) : Bool := true

/-- The rollback `os.unlink(cfbs_filename())`: after it the file is gone. -/
def unlinkManifest (_fs : Bool) : Bool := false

/-- Embedding of init_command: refuse to run in an existing project, resolve
the git decision from the argument or the prompt, fail early when git is
requested but missing or its initialization or configuration fails (all
before the manifest is written), then write the manifest and, when git is in
use, attempt the commit; a raised CFBSGitError unlinks the manifest that was
just written and returns 1. -/
def initCommand (env : InitEnv) : Except String InitResult :=
  if env.alreadyRepo then .error ("Already initialized - look at cfbs.json")
  else
    let doGit := env.argsGit.getD env.promptGitYes
    if doGit && !env.gitExists then .ok ⟨1, false⟩
    else if doGit && !env.isGitRepo && !env.gitInitOk then .ok ⟨1, false⟩
    else if doGit && env.isGitRepo && !env.setConfigOk then .ok ⟨1, false⟩
    else
      let manifest := writeManifest false
      if doGit && !env.commitOk then .ok ⟨1, unlinkManifest manifest⟩
      else .ok ⟨env.tailExit, manifest⟩

/-- C5: when init has created the manifest file and the version-control
commit that follows fails, init unlinks the manifest it just wrote and
returns exit code 1, so a failed init leaves no partially initialized
project behind. -/
theorem init_rolls_back_manifest_on_commit_failure (env : InitEnv)
    (hnew : env.alreadyRepo = false)
    (hgit : env.argsGit.getD env.promptGitYes = true)
    (hexists : env.gitExists = true)
    (hinit : env.isGitRepo = false → env.gitInitOk = true)
    (hconf : env.isGitRepo = true → env.setConfigOk = true)
    (hfail : env.commitOk = false) :
    initCommand env = .ok ⟨1, false⟩ := by
  unfold initCommand
  rw [if_neg (by simp [hnew])]
  rw [hgit]
  rw [if_neg (by simp [hexists])]
  cases hrepo : env.isGitRepo with
  | false =>
    rw [if_neg (by simp [hinit hrepo])]
    rw [if_neg (by simp [hrepo])]
    rw [if_pos (by simp [hfail])]
    rfl
  | true =>
    rw [if_neg (by simp [hrepo])]
    rw [if_neg (by simp [hconf hrepo])]
    rw [if_pos (by simp [hfail])]
    rfl

/-- Environment of the C5 witness: a fresh directory, git requested by
argument, git available, no repository yet, successful git init, and a
failing commit. -/
def envInit : InitEnv := ⟨false, some true, true, true, false, true, true, false, 0⟩

/-- Witness for C5: in the witness environment init returns exit code 1 and
the manifest file no longer exists. -/
theorem init_rolls_back_manifest_on_commit_failure_witness :
    initCommand envInit = .ok ⟨1, false⟩ :=
  init_rolls_back_manifest_on_commit_failure envInit rfl rfl rfl
    (fun _ => rfl) (fun h => by simp [envInit] at h) rfl

end Cfbs
